import Mathlib

/-!
Shallow embedding of the state-cache, view-identity, file-open classifier and
persistence logic of the `obsidian-remember-file-state` plugin
(`src/main.ts`, `src/settings.ts`).

Modelling conventions:

* JavaScript `Record<string, T>` objects keyed by vault file paths are
  modelled as insertion-ordered association lists (`List (String × T)`).
  For non-array-index string keys — which vault file paths are — property
  creation appends, assignment to an existing key updates in place,
  `delete` removes the pair, and `Object.values` enumerates in insertion
  order, exactly as on these lists.
* `Array.prototype.sort` is stable (ECMAScript 2019 and later).  A stable
  sort's output is uniquely determined by the comparator, so the sort in
  `forgetExcessFiles` is modelled by `List.insertionSort`, which is stable
  for the non-strict relation used here.
* `Date.now()` is passed in explicitly as a `now : Int` argument.
* Values produced by `JSON.parse` are modelled by the inductive `Json`
  type; a file content that fails to parse is modelled as `none`.
-/

namespace RememberFileState

/-- A JSON document, the result of a successful `JSON.parse`. -/
inductive Json where
  | null : Json
  | bool : Bool → Json
  | num : Int → Json
  | str : String → Json
  | arr : List Json → Json
  | obj : List (String × Json) → Json

/-- `ScrollInfo` from `main.ts`: `{top: number, left: number}`. -/
structure ScrollInfo where
  top : Int
  left : Int
deriving DecidableEq

/-- `StateData` from `main.ts`: the object built by `getState`, namely
`{'scrollInfo': scrollInfo, 'selection': stateSelectionJSON}`.  The
selection is the opaque JSON payload returned by the editor's
`selection.toJSON()`, or `undefined` (here `none`) on a legacy editor. -/
structure StateData where
  scrollInfo : ScrollInfo
  selection : Option Json

/-- `RememberedFileState` from `main.ts`. -/
structure RememberedFileState where
  path : String
  lastSavedTime : Int
  stateData : StateData

/-- `RememberFileStatePluginData` from `main.ts`. -/
structure PluginData where
  rememberedFiles : List (String × RememberedFileState)

/-- Read a property of a JS record: `m[k]`, `undefined` when absent. -/
def recGet {κ β : Type} [BEq κ] (k : κ) (m : List (κ × β)) : Option β :=
  (m.find? (fun pr => pr.1 == k)).map Prod.snd

/-- Assign a property of a JS record: `m[k] = v`.  An existing key keeps
its position; a new key is appended. -/
def recSet {κ β : Type} [BEq κ] (k : κ) (v : β) (m : List (κ × β)) : List (κ × β) :=
  if m.any (fun pr => pr.1 == k) then
    m.map (fun pr => if pr.1 == k then (k, v) else pr)
  else
    m ++ [(k, v)]

/-- Remove a property of a JS record: `delete m[k]`. -/
def recDelete {κ β : Type} [BEq κ] (k : κ) (m : List (κ × β)) : List (κ × β) :=
  m.filter (fun pr => !(pr.1 == k))

/-- The sort order of `forgetExcessFiles`: the comparator returns `-1`
(`a` before `b`) when `a.lastSavedTime > b.lastSavedTime`, `1` when `<`,
and `0` on ties, i.e. newer files first. -/
def newerFirst (a b : RememberedFileState) : Prop :=
  b.lastSavedTime ≤ a.lastSavedTime

instance : DecidableRel newerFirst := fun a b =>
  inferInstanceAs (Decidable (b.lastSavedTime ≤ a.lastSavedTime))

instance : IsTotal RememberedFileState newerFirst :=
  ⟨fun a b => le_total b.lastSavedTime a.lastSavedTime⟩

instance : IsTrans RememberedFileState newerFirst :=
  ⟨fun _ _ _ h1 h2 => le_trans h2 h1⟩

/-- `forgetExcessFiles` from `main.ts`: if `rememberMaxFiles ≤ 0` do
nothing; otherwise sort all remembered states newest first (stable sort)
and delete every state past position `keepMax`. -/
def forgetExcessFiles (keepMax : Int)
    (files : List (String × RememberedFileState)) :
    List (String × RememberedFileState) :=
  if keepMax ≤ 0 then files
  else
    let filesData := (files.map Prod.snd).insertionSort newerFirst
    let excess := filesData.drop keepMax.toNat
    excess.foldl (fun fs fd => recDelete fd.path fs) files

/-- `rememberFileState` from `main.ts`, restricted to its effect on
`data.rememberedFiles`: update the existing entry in place, or insert a
new one and then prune excess files. -/
def rememberFileState (keepMax : Int) (now : Int) (path : String)
    (stateData : StateData) (files : List (String × RememberedFileState)) :
    List (String × RememberedFileState) :=
  match recGet path files with
  | some _ =>
    files.map (fun pr =>
      if pr.1 == path then
        (pr.1, { pr.2 with lastSavedTime := now, stateData := stateData })
      else pr)
  | none =>
    forgetExcessFiles keepMax
      (files ++ [(path, ⟨path, now, stateData⟩)])

/-- One `rememberFileState` call: its `Date.now()` value, the file path
and the captured state. -/
structure RememberOp where
  time : Int
  path : String
  state : StateData

/-- Run a sequence of `rememberFileState` calls against an initially
empty cache, with a fixed `rememberMaxFiles` setting. -/
def runRemembers (keepMax : Int) (ops : List RememberOp) :
    List (String × RememberedFileState) :=
  ops.foldl (fun files o => rememberFileState keepMax o.time o.path o.state files) []

/-- The state argument of the most recent call in `ops` whose path is `p`:
later calls take precedence over earlier ones. -/
def lastStateFor (p : String) : List RememberOp → Option StateData
  | [] => none
  | o :: ops =>
    match lastStateFor p ops with
    | some s => some s
    | none => if o.path = p then some o.state else none

/-- `onFileRename` from `main.ts`: if an entry exists at the old path,
mutate its `path` field, delete the old key, and store the entry under
the new key. -/
def onFileRename (newPath oldPath : String)
    (files : List (String × RememberedFileState)) :
    List (String × RememberedFileState) :=
  match recGet oldPath files with
  | none => files
  | some existingFile =>
    let moved := { existingFile with path := newPath }
    -- `existingFile.path = file.path` mutates the object stored at the
    -- old key in place ...
    let files1 := files.map (fun pr => if pr.1 == oldPath then (pr.1, moved) else pr)
    -- ... then the old key is deleted and the new key assigned.
    let files2 := recDelete oldPath files1
    recSet newPath moved files2

/-- `getUniqueViewId` from `main.ts`.  `nextId` is the plugin's
`_nextUniqueViewId` counter, `viewId` the view's `__uniqueId` property
(`none` when undefined).  Returns the id handed back to the caller
(`-1` sentinel included), the view's `__uniqueId` afterwards, and the
counter afterwards. -/
def getUniqueViewId (nextId : Nat) (viewId : Option Nat)
    (autocreateId : Bool) : Int × Option Nat × Nat :=
  match viewId with
  | none =>
    if !autocreateId then (-1, none, nextId)
    else ((nextId : Int), some nextId, nextId + 1)
  | some id => ((id : Int), some id, nextId)

/-- `clearUniqueViewId` from `main.ts`: `delete view["__uniqueId"]`. -/
def clearUniqueViewId (_viewId : Option Nat) : Option Nat := none

/-- The plugin fields touched by the file-open path of `main.ts`. -/
structure PluginState where
  suppressNextFileOpen : Bool
  nextUniqueViewId : Nat
  lastOpenFiles : List (Int × String)
  rememberedFiles : List (String × RememberedFileState)
  registeredViews : List Int

/-- A non-active markdown pane, as seen by
`findFileStateFromOtherPane`: the path of the file it shows, its
`__uniqueId` property, and the live viewport state `getState` would
capture from it. -/
structure OtherPane where
  filePath : String
  uniqueId : Option Nat
  liveState : StateData

/-- Where `onFileOpen` obtained the state it passed to `restoreState`:
from the remembered-files cache, or live from another pane showing the
same file. -/
inductive RestoreSource where
  | fromCache (s : StateData)
  | fromOtherPane (s : StateData)

/-- `findFileStateFromOtherPane` from `main.ts`: the first other pane
showing the same file whose `getUniqueViewId` (no auto-create) is `≥ 0`,
i.e. whose `__uniqueId` is set. -/
def findFileStateFromOtherPane (filePath : String)
    (others : List OtherPane) : Option StateData :=
  (others.find? (fun o => o.filePath == filePath && o.uniqueId.isSome)).map
    OtherPane.liveState

/-- `registerOnUnloadFile` from `main.ts`, restricted to its effect on
the plugin state and the view's `__uniqueId`: assign an id
(auto-creating), and record the view as registered unless it already
is.  The monkey-patched unload hook itself is outside the model. -/
def registerOnUnloadFile (st : PluginState) (viewId0 : Option Nat) :
    PluginState × Option Nat :=
  let r := getUniqueViewId st.nextUniqueViewId viewId0 true
  let st1 := { st with nextUniqueViewId := r.2.2 }
  if st1.registeredViews.any (fun v => v == r.1) then (st1, r.2.1)
  else ({ st1 with registeredViews := st1.registeredViews ++ [r.1] }, r.2.1)

/-- Result of one `onFileOpen` callback: the plugin state afterwards,
the active view's `__uniqueId` afterwards, and the state passed to
`restoreState`, if restoration was invoked at all. -/
structure OpenResult where
  st : PluginState
  activeViewId : Option (Option Nat)
  restored : Option RestoreSource

/-- `onFileOpen` from `main.ts`.  `openedFile` is the path of the opened
file (`none` when the last pane was closed), `activeView` the active
markdown view's `__uniqueId` (`none` when the active view is not a
markdown view), `others` the non-active markdown panes. -/
def onFileOpen (openedFile : Option String)
    (activeView : Option (Option Nat)) (others : List OtherPane)
    (st : PluginState) : OpenResult :=
  match openedFile with
  | none => ⟨st, activeView, none⟩
  | some openedPath =>
    let shouldSuppressThis := st.suppressNextFileOpen
    let st := { st with suppressNextFileOpen := false }
    if shouldSuppressThis then ⟨st, activeView, none⟩
    else
      match activeView with
      | none => ⟨st, none, none⟩
      | some avId =>
        let reg := registerOnUnloadFile st avId
        let st := reg.1
        let avId := reg.2
        -- `getUniqueViewId` always returns a number, so the source's
        -- `viewId != undefined` test always holds.
        let viewId := (getUniqueViewId st.nextUniqueViewId avId false).1
        let lastOpenFileInView := recGet viewId st.lastOpenFiles
        let isRealFileOpen := lastOpenFileInView != some openedPath
        let st := { st with lastOpenFiles := recSet viewId openedPath st.lastOpenFiles }
        if !isRealFileOpen then ⟨st, some avId, none⟩
        else
          match recGet openedPath st.rememberedFiles with
          | some existingFile =>
            ⟨st, some avId, some (.fromCache existingFile.stateData)⟩
          | none =>
            match findFileStateFromOtherPane openedPath others with
            | some otherPaneState =>
              ⟨st, some avId, some (.fromOtherPane otherPaneState)⟩
            | none => ⟨st, some avId, none⟩

/-- JS property read `v.rememberedFiles` on a parsed JSON value: throws
a TypeError on `null`, yields `undefined` on other primitives and on
objects lacking the key. -/
def jsGetField : Json → String → Except Unit (Option Json)
  | Json.null, _ => Except.error ()
  | Json.obj fields, key => Except.ok (recGet key fields)
  | _, _ => Except.ok none

/-- JS `Object.keys(x)`: throws a TypeError on `undefined` and `null`;
on other values yields the own enumerable keys (index keys for strings
and arrays, none for other primitives). -/
def jsObjectKeys : Option Json → Except Unit (List String)
  | none => Except.error ()
  | some Json.null => Except.error ()
  | some (Json.obj fields) => Except.ok (fields.map Prod.fst)
  | some (Json.str s) => Except.ok ((List.range s.length).map toString)
  | some (Json.arr xs) => Except.ok ((List.range xs.length).map toString)
  | some _ => Except.ok []

/-- `readStateDatabase` from `main.ts`.  `fileExists` is the result of
`fs.exists`, `parseResult` the outcome of `JSON.parse` on the file
content (`none` when parsing threw), `data0` the in-memory `this.data`
beforehand (at startup: the empty `DEFAULT_DATA`).  The whole body after
the read sits in a `try` whose `catch` only logs, so a parse failure
leaves `this.data` unchanged, while a successfully parsed value is
installed even when the subsequent `Object.keys(this.data.rememberedFiles)`
throws a TypeError — the assignment has already happened. -/
def readStateDatabase (fileExists : Bool) (parseResult : Option Json)
    (data0 : Json) : Json :=
  if fileExists then
    match parseResult with
    | none => data0
    | some parsed =>
      match (jsGetField parsed "rememberedFiles").bind jsObjectKeys with
      | Except.ok _ => parsed
      | Except.error _ => parsed
  else data0

/-- Encoding of a `StateData` as the JSON document `JSON.stringify`
prints for it: an `undefined` selection is omitted. -/
def encodeStateData (s : StateData) : Json :=
  Json.obj
    (("scrollInfo",
      Json.obj [("top", Json.num s.scrollInfo.top), ("left", Json.num s.scrollInfo.left)]) ::
      (match s.selection with
       | some sel => [("selection", sel)]
       | none => []))

/-- Encoding of a `RememberedFileState` as its `JSON.stringify` document. -/
def encodeRememberedFileState (f : RememberedFileState) : Json :=
  Json.obj
    [("path", Json.str f.path),
     ("lastSavedTime", Json.num f.lastSavedTime),
     ("stateData", encodeStateData f.stateData)]

/-- `writeStateDatabase` from `main.ts`: `JSON.stringify(this.data)`,
modelled as the JSON document that string denotes (the string layer of
the JSON grammar is invertible, so `JSON.parse` of the written text
yields this document back). -/
def writeStateDatabase (d : PluginData) : Json :=
  Json.obj
    [("rememberedFiles",
      Json.obj (d.rememberedFiles.map (fun pr => (pr.1, encodeRememberedFileState pr.2))))]

/-- The `JSON.stringify` image of the empty `DEFAULT_DATA`. -/
def emptyDataJson : Json :=
  Json.obj [("rememberedFiles", Json.obj [])]

/-- Modelled from the spec: a decoder stating what it means for a JSON
document to be a valid persisted cache, used to compare the hydrated
document with the in-memory cache it came from.  Inverse of
`encodeStateData`. -/
def decodeStateData : Json → Option StateData
  | Json.obj [("scrollInfo", Json.obj [("top", Json.num t), ("left", Json.num l)])] =>
    some ⟨⟨t, l⟩, none⟩
  | Json.obj [("scrollInfo", Json.obj [("top", Json.num t), ("left", Json.num l)]),
      ("selection", sel)] =>
    some ⟨⟨t, l⟩, some sel⟩
  | _ => none

/-- Modelled from the spec: inverse of `encodeRememberedFileState`. -/
def decodeRememberedFileState : Json → Option RememberedFileState
  | Json.obj [("path", Json.str p), ("lastSavedTime", Json.num t), ("stateData", sd)] =>
    (decodeStateData sd).map (fun s => ⟨p, t, s⟩)
  | _ => none

/-- Modelled from the spec: inverse of the entry-record encoding. -/
def decodeEntries : List (String × Json) → Option (List (String × RememberedFileState))
  | [] => some []
  | (k, v) :: rest =>
    match decodeRememberedFileState v, decodeEntries rest with
    | some f, some fs => some ((k, f) :: fs)
    | _, _ => none

/-- Modelled from the spec: inverse of `writeStateDatabase`; `none` on
documents that are not a valid persisted cache. -/
def decodePluginData : Json → Option PluginData
  | Json.obj [("rememberedFiles", Json.obj entries)] =>
    (decodeEntries entries).map PluginData.mk
  | _ => none

/-- Well-formedness of the remembered-files record, maintained by the
plugin: every entry's `path` field equals its key, and keys are
distinct (a JS record cannot hold a key twice). -/
def WFfiles (files : List (String × RememberedFileState)) : Prop :=
  (∀ pr ∈ files, pr.2.path = pr.1) ∧ (files.map Prod.fst).Nodup

instance (files : List (String × RememberedFileState)) : Decidable (WFfiles files) :=
  inferInstanceAs (Decidable (_ ∧ _))

end RememberFileState

namespace RememberFileState


section RecordLemmas

variable {κ β : Type} [BEq κ] [LawfulBEq κ]

theorem recGet_nil (k : κ) : recGet k ([] : List (κ × β)) = none := rfl

theorem recGet_cons (k : κ) (a : κ × β) (m : List (κ × β)) :
    recGet k (a :: m) = if a.1 == k then some a.2 else recGet k m := by
  simp only [recGet, List.find?_cons]
  cases h : a.1 == k <;> simp [h]

theorem recGet_eq_none {k : κ} {m : List (κ × β)} :
    recGet k m = none ↔ ∀ pr ∈ m, ¬(pr.1 = k) := by
  simp [recGet, List.find?_eq_none]

theorem mem_of_recGet_eq_some {k : κ} {m : List (κ × β)} {v : β}
    (h : recGet k m = some v) : (k, v) ∈ m := by
  induction m with
  | nil => simp [recGet] at h
  | cons a m ih =>
    rw [recGet_cons] at h
    by_cases ha : a.1 = k
    · subst ha
      simp only [beq_self_eq_true, if_true, Option.some.injEq] at h
      rw [← h]
      exact List.mem_cons_self _ _
    · simp only [beq_iff_eq, ha, if_false] at h
      exact List.mem_cons_of_mem _ (ih h)

theorem recGet_eq_some_iff {m : List (κ × β)}
    (hnd : (m.map Prod.fst).Nodup) (k : κ) (v : β) :
    recGet k m = some v ↔ (k, v) ∈ m := by
  constructor
  · exact mem_of_recGet_eq_some
  · intro hm
    induction m with
    | nil => simp at hm
    | cons a m ih =>
      have ha0 : a.1 ∉ m.map Prod.fst := (List.nodup_cons.1 (by simpa using hnd)).1
      have hnd' : (m.map Prod.fst).Nodup := (List.nodup_cons.1 (by simpa using hnd)).2
      rw [recGet_cons]
      rcases List.mem_cons.1 hm with h | h
      · rw [← h]
        simp
      · have hne : ¬(a.1 = k) := by
          intro he
          apply ha0
          rw [he]
          exact List.mem_map_of_mem Prod.fst h
        simp only [beq_iff_eq, hne, if_false]
        exact ih hnd' h

theorem recGet_append (k : κ) (m m' : List (κ × β)) :
    recGet k (m ++ m') = (recGet k m).orElse (fun _ => recGet k m') := by
  induction m with
  | nil => simp [recGet]
  | cons a m ih =>
    rw [List.cons_append, recGet_cons, recGet_cons]
    cases h : a.1 == k <;> simp [h, ih]

theorem recGet_recDelete_self (k : κ) (m : List (κ × β)) :
    recGet k (recDelete k m) = none := by
  rw [recGet_eq_none]
  intro pr hpr
  have := List.of_mem_filter hpr
  simpa using this

theorem recGet_recDelete_ne {k k' : κ} (h : ¬(k' = k)) (m : List (κ × β)) :
    recGet k' (recDelete k m) = recGet k' m := by
  induction m with
  | nil => rfl
  | cons a m ih =>
    simp only [recDelete, List.filter_cons] at *
    cases hak : (!(a.1 == k))
    · have hak' : a.1 = k := by simpa using hak
      rw [recGet_cons]
      have hne : ¬(a.1 == k') = true := by
        simp only [beq_iff_eq, hak']
        exact fun hh => h hh.symm
      simp only [hne, if_neg, ite_false, Bool.false_eq_true]
      exact ih
    · simp only [if_true]
      rw [recGet_cons, recGet_cons]
      cases hk' : a.1 == k'
      · simpa using ih
      · simp

theorem recDelete_eq_self {k : κ} {m : List (κ × β)}
    (h : recGet k m = none) : recDelete k m = m := by
  rw [recGet_eq_none] at h
  apply List.filter_eq_self.2
  intro pr hpr
  simpa using h pr hpr

theorem any_key_iff_recGet_isSome (k : κ) (m : List (κ × β)) :
    m.any (fun pr => pr.1 == k) = true ↔ (recGet k m).isSome := by
  rw [List.any_eq_true]
  constructor
  · intro ⟨pr, hpr, hk⟩
    cases hg : recGet k m
    · rw [recGet_eq_none] at hg
      exact absurd (by simpa using hk) (hg pr hpr)
    · simp
  · intro hs
    cases hg : recGet k m with
    | none => rw [hg] at hs; simp at hs
    | some v => exact ⟨(k, v), mem_of_recGet_eq_some hg, by simp⟩

theorem recGet_map_setVal (k p : κ) (v : β) (m : List (κ × β)) :
    recGet k (m.map (fun pr => if pr.1 == p then (p, v) else pr)) =
      if k == p then (recGet p m).map (fun _ => v) else recGet k m := by
  induction m with
  | nil => cases h : k == p <;> simp [recGet, h]
  | cons a m ih =>
    simp only [List.map_cons]
    by_cases hap : a.1 = p
    · by_cases hkp : k = p
      · subst hkp
        simp [recGet_cons, hap]
      · have h1 : ¬(p = k) := fun hh => hkp hh.symm
        have h2 : ¬(a.1 = k) := by
          rw [hap]
          exact h1
        simp [recGet_cons, hap, hkp, h1, h2, ih]
    · by_cases hak : a.1 = k
      · have hkp : ¬(k = p) := fun hh => hap (hak.trans hh)
        simp [recGet_cons, hap, hak, hkp, ih]
      · simp [recGet_cons, hap, hak, ih]

theorem recGet_recSet_self (k : κ) (v : β) (m : List (κ × β)) :
    recGet k (recSet k v m) = some v := by
  unfold recSet
  by_cases h : m.any (fun pr => pr.1 == k) = true
  · rw [if_pos h, recGet_map_setVal]
    simp only [beq_self_eq_true, if_true]
    rw [any_key_iff_recGet_isSome] at h
    cases hg : recGet k m with
    | none => rw [hg] at h; simp at h
    | some w => simp
  · rw [if_neg h, recGet_append]
    have hnone : recGet k m = none := by
      cases hg : recGet k m with
      | none => rfl
      | some w =>
        exact absurd ((any_key_iff_recGet_isSome k m).2 (by simp [hg])) h
    simp [hnone, recGet_cons, Option.orElse]

theorem recGet_recSet_ne {k k' : κ} (h : ¬(k' = k)) (v : β) (m : List (κ × β)) :
    recGet k' (recSet k v m) = recGet k' m := by
  unfold recSet
  by_cases hm : m.any (fun pr => pr.1 == k) = true
  · rw [if_pos hm, recGet_map_setVal, if_neg]
    simpa using h
  · rw [if_neg hm, recGet_append]
    have hone : recGet k' [(k, v)] = none := by
      rw [recGet_eq_none]
      intro pr hpr
      simp only [List.mem_singleton] at hpr
      rw [hpr]
      exact fun hh => h hh.symm
    cases hg : recGet k' m <;> simp [hone, hg, Option.orElse]

end RecordLemmas

end RememberFileState

namespace RememberFileState

theorem forgetExcessFiles_nonpos {keepMax : Int} (h : keepMax ≤ 0)
    (files : List (String × RememberedFileState)) :
    forgetExcessFiles keepMax files = files := by
  simp [forgetExcessFiles, h]

theorem foldl_recDelete_eq_filter (ds : List RememberedFileState)
    (m : List (String × RememberedFileState)) :
    ds.foldl (fun fs fd => recDelete fd.path fs) m =
      m.filter (fun pr => !(ds.any (fun d => pr.1 == d.path))) := by
  induction ds generalizing m with
  | nil => simp
  | cons d ds ih =>
    rw [List.foldl_cons, ih]
    unfold recDelete
    rw [List.filter_filter]
    apply List.filter_congr
    intro pr _
    simp [Bool.not_or, Bool.and_comm]

theorem forgetExcessFiles_pos {keepMax : Int} (h : 0 < keepMax)
    (files : List (String × RememberedFileState)) :
    forgetExcessFiles keepMax files =
      files.filter (fun pr =>
        !((((files.map Prod.snd).insertionSort newerFirst).drop keepMax.toNat).any
          (fun d => pr.1 == d.path))) := by
  rw [forgetExcessFiles, if_neg (by omega)]
  exact foldl_recDelete_eq_filter _ _

theorem WFfiles_nil : WFfiles [] := ⟨by simp, by simp⟩

theorem WFfiles_filter {files : List (String × RememberedFileState)}
    (h : WFfiles files) (q : String × RememberedFileState → Bool) :
    WFfiles (files.filter q) := by
  obtain ⟨h1, h2⟩ := h
  constructor
  · intro pr hpr
    exact h1 pr (List.mem_of_mem_filter hpr)
  · exact List.Nodup.sublist (List.Sublist.map Prod.fst (List.filter_sublist files)) h2

theorem WFfiles_forgetExcessFiles {files : List (String × RememberedFileState)}
    (h : WFfiles files) (keepMax : Int) :
    WFfiles (forgetExcessFiles keepMax files) := by
  by_cases hk : keepMax ≤ 0
  · rw [forgetExcessFiles_nonpos hk]
    exact h
  · rw [forgetExcessFiles_pos (by omega)]
    exact WFfiles_filter h _

theorem WFfiles_insert {files : List (String × RememberedFileState)}
    (hwf : WFfiles files) {path : String}
    (hg : recGet path files = none) (f : RememberedFileState) (hf : f.path = path) :
    WFfiles (files ++ [(path, f)]) := by
  obtain ⟨h1, h2⟩ := hwf
  constructor
  · intro pr hpr
    rcases List.mem_append.1 hpr with h | h
    · exact h1 pr h
    · simp only [List.mem_singleton] at h
      rw [h]
      exact hf
  · rw [List.map_append]
    simp only [List.map_cons, List.map_nil]
    rw [List.nodup_append]
    refine ⟨h2, by simp, ?_⟩
    intro a ha hb
    simp only [List.mem_singleton] at hb
    rw [recGet_eq_none] at hg
    obtain ⟨pr, hpr, hpra⟩ := List.mem_map.1 ha
    exact hg pr hpr (by rw [hpra, hb])

theorem WFfiles_rememberFileState {files : List (String × RememberedFileState)}
    (hwf : WFfiles files) (keepMax now : Int) (path : String) (sd : StateData) :
    WFfiles (rememberFileState keepMax now path sd files) := by
  unfold rememberFileState
  cases hg : recGet path files with
  | some e =>
    obtain ⟨h1, h2⟩ := hwf
    constructor
    · intro pr hpr
      obtain ⟨pr0, hpr0, heq⟩ := List.mem_map.1 hpr
      by_cases hc : pr0.1 = path
      · rw [← heq]
        simp only [hc, beq_self_eq_true, if_true]
        have := h1 pr0 hpr0
        simpa [hc] using this
      · rw [← heq]
        have hc' : ¬(pr0.1 == path) = true := by simpa using hc
        simp only [hc', if_neg, ite_false, Bool.false_eq_true]
        exact h1 pr0 hpr0
    · have hfst :
          (files.map (fun pr =>
            if pr.1 == path then
              (pr.1, { pr.2 with lastSavedTime := now, stateData := sd })
            else pr)).map Prod.fst = files.map Prod.fst := by
        rw [List.map_map]
        apply List.map_congr_left
        intro pr _
        by_cases hc : pr.1 = path <;> simp [hc]
      rw [hfst]
      exact h2
  | none =>
    exact WFfiles_forgetExcessFiles (WFfiles_insert hwf hg _ rfl) _

theorem sorted_of_const_time {l : List RememberedFileState} {t : Int}
    (h : ∀ x ∈ l, x.lastSavedTime = t) : l.Sorted newerFirst := by
  induction l with
  | nil => simp
  | cons a l ih =>
    rw [List.sorted_cons]
    refine ⟨fun b hb => ?_, ih (fun x hx => h x (List.mem_cons_of_mem _ hx))⟩
    unfold newerFirst
    rw [h a (List.mem_cons_self _ _), h b (List.mem_cons_of_mem _ hb)]

theorem nodup_val_eq {κ β : Type} [BEq κ] [LawfulBEq κ]
    {m : List (κ × β)} (hnd : (m.map Prod.fst).Nodup) {p : κ} {a b : β}
    (ha : (p, a) ∈ m) (hb : (p, b) ∈ m) : a = b := by
  have h1 := (recGet_eq_some_iff hnd p a).2 ha
  have h2 := (recGet_eq_some_iff hnd p b).2 hb
  rw [h1] at h2
  exact Option.some_inj.1 h2

theorem mem_take_of_mem_forget {keepMax : Int} (hk : 0 < keepMax)
    {files : List (String × RememberedFileState)} (hwf : WFfiles files)
    {q : String} {k : RememberedFileState}
    (hmem : (q, k) ∈ forgetExcessFiles keepMax files) :
    (q, k) ∈ files ∧
      k ∈ ((files.map Prod.snd).insertionSort newerFirst).take keepMax.toNat := by
  rw [forgetExcessFiles_pos hk] at hmem
  have h1 := List.mem_of_mem_filter hmem
  have h2 := List.of_mem_filter hmem
  refine ⟨h1, ?_⟩
  have hks : k ∈ (files.map Prod.snd).insertionSort newerFirst := by
    rw [(List.perm_insertionSort newerFirst _).mem_iff]
    exact List.mem_map_of_mem Prod.snd h1
  have hsplit :=
    List.take_append_drop keepMax.toNat ((files.map Prod.snd).insertionSort newerFirst)
  rw [← hsplit] at hks
  rcases List.mem_append.1 hks with h | h
  · exact h
  · exfalso
    have hpath : k.path = q := hwf.1 (q, k) h1
    have : (((files.map Prod.snd).insertionSort newerFirst).drop keepMax.toNat).any
        (fun d => (q, k).1 == d.path) = true :=
      List.any_eq_true.2 ⟨k, h, by simp [hpath]⟩
    rw [this] at h2
    simp at h2

theorem length_forgetExcessFiles_le {keepMax : Int} (hk : 0 < keepMax)
    {files : List (String × RememberedFileState)} (hwf : WFfiles files) :
    (forgetExcessFiles keepMax files).length ≤ keepMax.toNat := by
  have hwfres : WFfiles (forgetExcessFiles keepMax files) :=
    WFfiles_forgetExcessFiles hwf _
  have hnd : ((forgetExcessFiles keepMax files).map Prod.snd).Nodup := by
    have h1 : (forgetExcessFiles keepMax files).map Prod.fst =
        ((forgetExcessFiles keepMax files).map Prod.snd).map RememberedFileState.path := by
      rw [List.map_map]
      apply List.map_congr_left
      intro pr hpr
      exact (hwfres.1 pr hpr).symm
    have h2 := hwfres.2
    rw [h1] at h2
    exact h2.of_map
  have hsub : (forgetExcessFiles keepMax files).map Prod.snd ⊆
      ((files.map Prod.snd).insertionSort newerFirst).take keepMax.toNat := by
    intro x hx
    obtain ⟨pr, hpr, hprx⟩ := List.mem_map.1 hx
    have hm : (pr.1, pr.2) ∈ forgetExcessFiles keepMax files := hpr
    rw [← hprx]
    exact (mem_take_of_mem_forget hk hwf hm).2
  calc (forgetExcessFiles keepMax files).length
      = ((forgetExcessFiles keepMax files).map Prod.snd).length :=
        (List.length_map _ _).symm
    _ ≤ (((files.map Prod.snd).insertionSort newerFirst).take keepMax.toNat).length :=
        (List.subperm_of_subset hnd hsub).length_le
    _ ≤ keepMax.toNat := by
        rw [List.length_take]
        exact min_le_left _ _

theorem length_rememberFileState_le {keepMax : Int} (hk : 0 < keepMax)
    {files : List (String × RememberedFileState)} (hwf : WFfiles files)
    (hlen : files.length ≤ keepMax.toNat) (now : Int) (path : String) (sd : StateData) :
    (rememberFileState keepMax now path sd files).length ≤ keepMax.toNat := by
  unfold rememberFileState
  cases hg : recGet path files with
  | some e => simpa using hlen
  | none => exact length_forgetExcessFiles_le hk (WFfiles_insert hwf hg _ rfl)

theorem run_length_inv {keepMax : Int} (hk : 0 < keepMax) (ops : List RememberOp) :
    ∀ files, WFfiles files → files.length ≤ keepMax.toNat →
      (ops.foldl (fun fs o => rememberFileState keepMax o.time o.path o.state fs)
        files).length ≤ keepMax.toNat := by
  induction ops with
  | nil =>
    intro files _ h
    exact h
  | cons o ops ih =>
    intro files hwf hlen
    exact ih _ (WFfiles_rememberFileState hwf _ _ _ _)
      (length_rememberFileState_le hk hwf hlen _ _ _)

theorem WFfiles_runRemembers (keepMax : Int) (ops : List RememberOp) :
    WFfiles (runRemembers keepMax ops) := by
  unfold runRemembers
  suffices h : ∀ files, WFfiles files →
      WFfiles (ops.foldl (fun fs o => rememberFileState keepMax o.time o.path o.state fs) files) by
    exact h [] WFfiles_nil
  induction ops with
  | nil =>
    intro files h
    exact h
  | cons o ops ih =>
    intro files h
    exact ih _ (WFfiles_rememberFileState h _ _ _ _)

theorem length_runRemembers_le {keepMax : Int} (hk : 0 < keepMax)
    (ops : List RememberOp) :
    (runRemembers keepMax ops).length ≤ keepMax.toNat :=
  run_length_inv hk ops [] WFfiles_nil (by simp)

theorem removed_oldest {keepMax : Int} (hk : 0 < keepMax)
    {files : List (String × RememberedFileState)} (hwf : WFfiles files)
    {p : String} {e : RememberedFileState}
    (hin : (p, e) ∈ files) (hout : (p, e) ∉ forgetExcessFiles keepMax files)
    {q : String} {k : RememberedFileState}
    (hkept : (q, k) ∈ forgetExcessFiles keepMax files) :
    e.lastSavedTime ≤ k.lastSavedTime := by
  have hk_take := (mem_take_of_mem_forget hk hwf hkept).2
  rw [forgetExcessFiles_pos hk] at hout
  have hpred : ¬((!((((files.map Prod.snd).insertionSort newerFirst).drop
      keepMax.toNat).any (fun d => (p, e).1 == d.path))) = true) := by
    intro hp
    exact hout (List.mem_filter.2 ⟨hin, hp⟩)
  have hany : (((files.map Prod.snd).insertionSort newerFirst).drop
      keepMax.toNat).any (fun d => p == d.path) = true := by
    by_contra hc
    exact hpred (by simpa using hc)
  obtain ⟨d, hd, hdp⟩ := List.any_eq_true.1 hany
  have hdp' : p = d.path := by simpa using hdp
  have hdmem : d ∈ files.map Prod.snd :=
    (List.perm_insertionSort newerFirst _).subset (List.mem_of_mem_drop hd)
  obtain ⟨pr, hpr, hpr2⟩ := List.mem_map.1 hdmem
  have hpr1 : pr.1 = p := by
    have := hwf.1 pr hpr
    rw [hpr2] at this
    rw [← this, ← hdp']
  have hprd : (p, d) ∈ files := by
    have : pr = (p, d) := Prod.ext hpr1 hpr2
    rwa [this] at hpr
  have hde : d = e := nodup_val_eq hwf.2 hprd hin
  have hps : List.Pairwise newerFirst
      ((((files.map Prod.snd).insertionSort newerFirst).take keepMax.toNat) ++
        (((files.map Prod.snd).insertionSort newerFirst).drop keepMax.toNat)) := by
    rw [List.take_append_drop]
    exact List.sorted_insertionSort newerFirst _
  have := (List.pairwise_append.1 hps).2.2 k hk_take d hd
  rw [hde] at this
  exact this

end RememberFileState

namespace RememberFileState

theorem recGet_map_updTime (k path : String) (now : Int) (sd : StateData)
    (m : List (String × RememberedFileState)) :
    recGet k (m.map (fun pr =>
      if pr.1 == path then
        (pr.1, { pr.2 with lastSavedTime := now, stateData := sd })
      else pr)) =
      if k == path then
        (recGet path m).map (fun r => { r with lastSavedTime := now, stateData := sd })
      else recGet k m := by
  induction m with
  | nil => cases h : k == path <;> simp [recGet, h]
  | cons a m ih =>
    simp only [List.map_cons, recGet_cons, ih]
    by_cases hap : a.1 = path
    · by_cases hkp : k = path
      · subst hkp
        simp [hap]
      · have h1 : ¬(path = k) := fun hh => hkp hh.symm
        have h2 : ¬(a.1 = k) := by
          rw [hap]
          exact h1
        simp [hap, hkp, h1, h2]
    · by_cases hak : a.1 = k
      · have hkp : ¬(k = path) := fun hh => hap (hak.trans hh)
        simp [hap, hak, hkp]
      · simp [hap, hak]

theorem lastStateFor_cons (p : String) (o : RememberOp) (ops : List RememberOp) :
    lastStateFor p (o :: ops) =
      match lastStateFor p ops with
      | some s => some s
      | none => if o.path = p then some o.state else none := rfl

theorem recGet_rememberFileState_some {keepMax now : Int} {qp : String}
    {s : StateData} {files : List (String × RememberedFileState)}
    (hwf : WFfiles files) {p : String} {e : RememberedFileState}
    (h : recGet p (rememberFileState keepMax now qp s files) = some e) :
    (p = qp ∧ e.stateData = s) ∨ (¬(p = qp) ∧ recGet p files = some e) := by
  unfold rememberFileState at h
  cases hg : recGet qp files with
  | some e0 =>
    rw [hg] at h
    rw [recGet_map_updTime] at h
    by_cases hpq : p = qp
    · left
      refine ⟨hpq, ?_⟩
      rw [hpq] at h
      simp only [beq_self_eq_true, if_true, hg, Option.map_some] at h
      rw [← Option.some_inj.1 h]
    · right
      refine ⟨hpq, ?_⟩
      have hb : (p == qp) = false := by simpa using hpq
      rwa [hb] at h
  | none =>
    rw [hg] at h
    have hwf' : WFfiles (files ++ [(qp, ⟨qp, now, s⟩)]) :=
      WFfiles_insert hwf hg _ rfl
    have hwfres := WFfiles_forgetExcessFiles hwf' keepMax
    have hmem : (p, e) ∈ forgetExcessFiles keepMax (files ++ [(qp, ⟨qp, now, s⟩)]) :=
      mem_of_recGet_eq_some h
    have hmem' : (p, e) ∈ files ++ [(qp, ⟨qp, now, s⟩)] := by
      by_cases hk : keepMax ≤ 0
      · rwa [forgetExcessFiles_nonpos hk] at hmem
      · exact (mem_take_of_mem_forget (by omega) hwf' hmem).1
    rcases List.mem_append.1 hmem' with hmf | hmf
    · right
      have hpq : ¬(p = qp) := by
        intro hh
        rw [recGet_eq_none] at hg
        exact hg (p, e) hmf (by simpa using hh)
      exact ⟨hpq, (recGet_eq_some_iff hwf.2 p e).2 hmf⟩
    · left
      simp only [List.mem_singleton, Prod.mk.injEq] at hmf
      exact ⟨hmf.1, by rw [hmf.2]⟩

theorem recGet_rememberFileState_nonpos {keepMax : Int} (hk : keepMax ≤ 0)
    (now : Int) (qp : String) (s : StateData)
    (files : List (String × RememberedFileState)) (p : String) :
    (recGet p (rememberFileState keepMax now qp s files)).map
        RememberedFileState.stateData =
      if p = qp then some s
      else (recGet p files).map RememberedFileState.stateData := by
  unfold rememberFileState
  cases hg : recGet qp files with
  | some e0 =>
    rw [recGet_map_updTime]
    by_cases hpq : p = qp
    · rw [hpq]
      simp [hg]
    · have hb : (p == qp) = false := by simpa using hpq
      rw [hb]
      simp [hpq]
  | none =>
    rw [forgetExcessFiles_nonpos hk, recGet_append]
    by_cases hpq : p = qp
    · rw [hpq, hg]
      simp [recGet_cons]
    · have hone : recGet p [(qp, (⟨qp, now, s⟩ : RememberedFileState))] = none := by
        rw [recGet_eq_none]
        intro pr hpr
        simp only [List.mem_singleton] at hpr
        rw [hpr]
        exact fun hh => hpq hh.symm
      cases hgp : recGet p files <;> simp [hone, hgp, Option.orElse, hpq]

theorem run_recGet_lastState {keepMax : Int} (ops : List RememberOp) :
    ∀ files, WFfiles files → ∀ p e,
      recGet p (ops.foldl
        (fun fs o => rememberFileState keepMax o.time o.path o.state fs) files) =
          some e →
      lastStateFor p ops = some e.stateData ∨
        (lastStateFor p ops = none ∧ recGet p files = some e) := by
  induction ops with
  | nil =>
    intro files _ p e h
    exact Or.inr ⟨rfl, h⟩
  | cons o ops ih =>
    intro files hwf p e h
    rw [List.foldl_cons] at h
    have hwf' := WFfiles_rememberFileState hwf keepMax o.time o.path o.state
    rcases ih _ hwf' p e h with hl | ⟨hn, hr⟩
    · left
      rw [lastStateFor_cons]
      simp only [hl]
    · rcases recGet_rememberFileState_some hwf hr with ⟨hpq, hsd⟩ | ⟨hpq, hrf⟩
      · left
        rw [lastStateFor_cons]
        simp only [hn]
        rw [if_pos hpq.symm, hsd]
      · right
        have hnp : ¬(o.path = p) := fun hh => hpq hh.symm
        constructor
        · rw [lastStateFor_cons]
          simp only [hn]
          rw [if_neg hnp]
        · exact hrf

theorem run_recGet_nonpos {keepMax : Int} (hk : keepMax ≤ 0)
    (ops : List RememberOp) :
    ∀ files p,
      (recGet p (ops.foldl
        (fun fs o => rememberFileState keepMax o.time o.path o.state fs)
          files)).map RememberedFileState.stateData =
        match lastStateFor p ops with
        | some s => some s
        | none => (recGet p files).map RememberedFileState.stateData := by
  induction ops with
  | nil =>
    intro files p
    rfl
  | cons o ops ih =>
    intro files p
    rw [List.foldl_cons, ih, lastStateFor_cons]
    cases hls : lastStateFor p ops with
    | some s => simp
    | none =>
      rw [recGet_rememberFileState_nonpos hk]
      by_cases hpq : p = o.path
      · rw [if_pos hpq, if_pos hpq.symm]
      · have hnp : ¬(o.path = p) := fun hh => hpq hh.symm
        rw [if_neg hpq, if_neg hnp]

theorem rememberFileState_nonpos_fresh {keepMax : Int} (hk : keepMax ≤ 0)
    {path : String} {files : List (String × RememberedFileState)}
    (hg : recGet path files = none) (now : Int) (sd : StateData) :
    rememberFileState keepMax now path sd files =
      files ++ [(path, ⟨path, now, sd⟩)] := by
  unfold rememberFileState
  rw [hg]
  exact forgetExcessFiles_nonpos hk _

theorem rememberFileState_keeps_keys {keepMax : Int} (hk : keepMax ≤ 0)
    (now : Int) (path : String) (sd : StateData)
    (files : List (String × RememberedFileState)) (q : String)
    (hq : q ∈ files.map Prod.fst) :
    q ∈ (rememberFileState keepMax now path sd files).map Prod.fst := by
  unfold rememberFileState
  cases hg : recGet path files with
  | some e =>
    have hfst :
        (files.map (fun pr =>
          if pr.1 == path then
            (pr.1, { pr.2 with lastSavedTime := now, stateData := sd })
          else pr)).map Prod.fst = files.map Prod.fst := by
      rw [List.map_map]
      apply List.map_congr_left
      intro pr _
      by_cases hc : pr.1 = path <;> simp [hc]
    rwa [hfst]
  | none =>
    rw [forgetExcessFiles_nonpos hk, List.map_append]
    exact List.mem_append_left _ hq

theorem run_nonpos_distinct {keepMax : Int} (hk : keepMax ≤ 0)
    (ops : List RememberOp) :
    ∀ files, (∀ o ∈ ops, recGet o.path files = none) →
      List.Pairwise (fun o o' => ¬(o.path = o'.path)) ops →
      ops.foldl (fun fs o => rememberFileState keepMax o.time o.path o.state fs)
          files =
        files ++ ops.map (fun o => (o.path, ⟨o.path, o.time, o.state⟩)) := by
  induction ops with
  | nil =>
    intro files _ _
    simp
  | cons o ops ih =>
    intro files hfresh hpw
    rw [List.foldl_cons,
      rememberFileState_nonpos_fresh hk (hfresh o (List.mem_cons_self _ _)) _ _]
    have hpw' := (List.pairwise_cons.1 hpw)
    have hfresh' : ∀ o' ∈ ops,
        recGet o'.path
          (files ++ [(o.path, (⟨o.path, o.time, o.state⟩ : RememberedFileState))]) =
          none := by
      intro o' ho'
      have hone : recGet o'.path
          [(o.path, (⟨o.path, o.time, o.state⟩ : RememberedFileState))] = none := by
        rw [recGet_eq_none]
        intro pr hpr
        simp only [List.mem_singleton] at hpr
        rw [hpr]
        exact fun hh => hpw'.1 o' ho' hh
      rw [recGet_append, hfresh o' (List.mem_cons_of_mem _ ho')]
      show recGet o'.path
        [(o.path, (⟨o.path, o.time, o.state⟩ : RememberedFileState))] = none
      exact hone
    rw [ih _ hfresh' hpw'.2]
    simp

end RememberFileState

namespace RememberFileState

theorem filter_not_key_in_drop {files : List (String × RememberedFileState)}
    (hnd : (files.map Prod.fst).Nodup) (n : Nat) :
    files.filter (fun pr => !((files.drop n).any (fun pr' => pr.1 == pr'.1))) =
      files.take n := by
  induction files generalizing n with
  | nil => simp
  | cons a files ih =>
    cases n with
    | zero =>
      rw [List.drop_zero, List.take_zero]
      rw [List.filter_eq_nil_iff]
      intro pr hpr
      have hany : (a :: files).any (fun pr' => pr.1 == pr'.1) = true :=
        List.any_eq_true.2 ⟨pr, hpr, by simp⟩
      simp [hany]
    | succ n =>
      have hnd' : (files.map Prod.fst).Nodup :=
        (List.nodup_cons.1 (by simpa using hnd)).2
      have ha0 : a.1 ∉ files.map Prod.fst :=
        (List.nodup_cons.1 (by simpa using hnd)).1
      rw [List.drop_succ_cons, List.filter_cons]
      have hcond0 : (files.drop n).any (fun pr' => a.1 == pr'.1) = false := by
        rw [List.any_eq_false]
        intro pr' hpr'
        simp only [beq_iff_eq]
        intro hh
        apply ha0
        rw [hh]
        exact List.mem_map_of_mem Prod.fst (List.mem_of_mem_drop hpr')
      have hconda : (!((files.drop n).any (fun pr' => a.1 == pr'.1))) = true := by
        rw [hcond0]
        rfl
      rw [hconda]
      simp only [if_true]
      rw [List.take_succ_cons]
      congr 1
      exact ih hnd' n

theorem forgetExcessFiles_const_time {keepMax : Int} (hk : 0 < keepMax)
    {files : List (String × RememberedFileState)} (hwf : WFfiles files) {t : Int}
    (ht : ∀ pr ∈ files, pr.2.lastSavedTime = t) :
    forgetExcessFiles keepMax files = files.take keepMax.toNat := by
  rw [forgetExcessFiles_pos hk]
  have hsorted : (files.map Prod.snd).insertionSort newerFirst =
      files.map Prod.snd := by
    apply List.Sorted.insertionSort_eq
    apply sorted_of_const_time
    intro x hx
    obtain ⟨pr, hpr, hprx⟩ := List.mem_map.1 hx
    rw [← hprx]
    exact ht pr hpr
  rw [hsorted, ← List.map_drop]
  have hfilter : files.filter (fun pr =>
      !(((files.drop keepMax.toNat).map Prod.snd).any (fun d => pr.1 == d.path))) =
      files.filter (fun pr =>
        !((files.drop keepMax.toNat).any (fun pr' => pr.1 == pr'.1))) := by
    apply List.filter_congr
    intro pr _
    congr 1
    rw [Bool.eq_iff_iff]
    simp only [List.any_eq_true, List.mem_map]
    constructor
    · rintro ⟨d, ⟨pr', hpr', hd⟩, hxx⟩
      refine ⟨pr', hpr', ?_⟩
      rw [← hd] at hxx
      rwa [hwf.1 pr' (List.mem_of_mem_drop hpr')] at hxx
    · rintro ⟨pr', hpr', hxx⟩
      refine ⟨pr'.2, ⟨pr', hpr', rfl⟩, ?_⟩
      rwa [hwf.1 pr' (List.mem_of_mem_drop hpr')]
  rw [hfilter]
  exact filter_not_key_in_drop hwf.2 keepMax.toNat

theorem rememberFileState_tie_evicts {keepMax : Int} (hk : 0 < keepMax)
    {files : List (String × RememberedFileState)} (hwf : WFfiles files) {t : Int}
    (ht : ∀ pr ∈ files, pr.2.lastSavedTime = t)
    (hlen : files.length = keepMax.toNat)
    {p : String} (hp : recGet p files = none) (s : StateData) :
    rememberFileState keepMax t p s files = files := by
  have hwf' : WFfiles (files ++ [(p, (⟨p, t, s⟩ : RememberedFileState))]) :=
    WFfiles_insert hwf hp _ rfl
  have ht' : ∀ pr ∈ files ++ [(p, (⟨p, t, s⟩ : RememberedFileState))],
      pr.2.lastSavedTime = t := by
    intro pr hpr
    rcases List.mem_append.1 hpr with h | h
    · exact ht pr h
    · simp only [List.mem_singleton] at h
      rw [h]
  unfold rememberFileState
  rw [hp]
  show forgetExcessFiles keepMax
    (files ++ [(p, (⟨p, t, s⟩ : RememberedFileState))]) = files
  rw [forgetExcessFiles_const_time hk hwf' ht', ← hlen, List.take_left]

theorem onFileRename_moves {files : List (String × RememberedFileState)}
    {oldPath newPath : String} {e : RememberedFileState}
    (h : recGet oldPath files = some e) (hne : ¬(oldPath = newPath)) :
    recGet newPath (onFileRename newPath oldPath files) =
        some { e with path := newPath } ∧
      recGet oldPath (onFileRename newPath oldPath files) = none := by
  have hor : onFileRename newPath oldPath files =
      recSet newPath { e with path := newPath }
        (recDelete oldPath
          (files.map (fun pr =>
            if pr.1 == oldPath then (pr.1, { e with path := newPath }) else pr))) := by
    unfold onFileRename
    rw [h]
  rw [hor]
  refine ⟨recGet_recSet_self _ _ _, ?_⟩
  rw [recGet_recSet_ne hne]
  exact recGet_recDelete_self _ _

theorem readStateDatabase_parse_failure (d0 : Json) :
    readStateDatabase true none d0 = d0 := rfl

theorem readStateDatabase_no_file (parseResult : Option Json) (d0 : Json) :
    readStateDatabase false parseResult d0 = d0 := rfl

theorem readStateDatabase_parsed (v : Json) (d0 : Json) :
    readStateDatabase true (some v) d0 = v := by
  show (match (jsGetField v "rememberedFiles").bind jsObjectKeys with
    | Except.ok _ => v
    | Except.error _ => v) = v
  cases (jsGetField v "rememberedFiles").bind jsObjectKeys <;> rfl

theorem decodeStateData_encode (s : StateData) :
    decodeStateData (encodeStateData s) = some s := by
  cases s with
  | mk si sel =>
    cases si with
    | mk top left =>
      cases sel with
      | none => rfl
      | some j => rfl

theorem decodeRememberedFileState_encode (f : RememberedFileState) :
    decodeRememberedFileState (encodeRememberedFileState f) = some f := by
  cases f with
  | mk p t sd =>
    show (decodeStateData (encodeStateData sd)).map
      (fun s => (⟨p, t, s⟩ : RememberedFileState)) = some ⟨p, t, sd⟩
    rw [decodeStateData_encode]
    rfl

theorem decodeEntries_encode (l : List (String × RememberedFileState)) :
    decodeEntries (l.map (fun pr => (pr.1, encodeRememberedFileState pr.2))) =
      some l := by
  induction l with
  | nil => rfl
  | cons a l ih =>
    show (match decodeRememberedFileState (encodeRememberedFileState a.2),
        decodeEntries (l.map (fun pr => (pr.1, encodeRememberedFileState pr.2))) with
      | some f, some fs => some ((a.1, f) :: fs)
      | _, _ => none) = some (a :: l)
    rw [decodeRememberedFileState_encode, ih]

theorem decodePluginData_write (d : PluginData) :
    decodePluginData (writeStateDatabase d) = some d := by
  cases d with
  | mk files =>
    show (decodeEntries (files.map
        (fun pr => (pr.1, encodeRememberedFileState pr.2)))).map
      PluginData.mk = some (PluginData.mk files)
    rw [decodeEntries_encode]
    rfl

theorem onFileOpen_suppressed_eq {p : String} {av : Option (Option Nat)}
    {others : List OtherPane} {st : PluginState}
    (h : st.suppressNextFileOpen = true) :
    onFileOpen (some p) av others st =
      ⟨{ st with suppressNextFileOpen := false }, av, none⟩ := by
  unfold onFileOpen
  rw [h]
  rfl

theorem registerOnUnloadFile_some_eq (st : PluginState) (v : Nat) :
    registerOnUnloadFile st (some v) =
      if st.registeredViews.any (fun r => r == ((v : Int))) then (st, some v)
      else ({ st with registeredViews := st.registeredViews ++ [(v : Int)] },
        some v) := rfl

theorem onFileOpen_not_suppressed_eq (p : String) (avId : Option Nat)
    (others : List OtherPane) (st : PluginState)
    (hsup : st.suppressNextFileOpen = false) :
    onFileOpen (some p) (some avId) others st =
      (let st1 : PluginState := { st with suppressNextFileOpen := false }
      let reg := registerOnUnloadFile st1 avId
      let viewId := (getUniqueViewId reg.1.nextUniqueViewId reg.2 false).1
      let st2 : PluginState :=
        { reg.1 with lastOpenFiles := recSet viewId p reg.1.lastOpenFiles }
      if !(recGet viewId reg.1.lastOpenFiles != some p) then
        ⟨st2, some reg.2, none⟩
      else
        match recGet p reg.1.rememberedFiles with
        | some e => ⟨st2, some reg.2, some (.fromCache e.stateData)⟩
        | none =>
          match findFileStateFromOtherPane p others with
          | some s => ⟨st2, some reg.2, some (.fromOtherPane s)⟩
          | none => ⟨st2, some reg.2, none⟩) := by
  unfold onFileOpen
  rw [hsup]
  rfl

end RememberFileState

namespace RememberFileState

theorem registerOnUnloadFile_suppress (st : PluginState) (v : Option Nat) :
    (registerOnUnloadFile st v).1.suppressNextFileOpen = st.suppressNextFileOpen := by
  show (if st.registeredViews.any
        (fun x => x == (getUniqueViewId st.nextUniqueViewId v true).1) = true then
      ({ st with nextUniqueViewId := (getUniqueViewId st.nextUniqueViewId v true).2.2 },
        (getUniqueViewId st.nextUniqueViewId v true).2.1)
    else
      ({ st with
          nextUniqueViewId := (getUniqueViewId st.nextUniqueViewId v true).2.2,
          registeredViews := st.registeredViews ++
            [(getUniqueViewId st.nextUniqueViewId v true).1] },
        (getUniqueViewId st.nextUniqueViewId v true).2.1)).1.suppressNextFileOpen =
    st.suppressNextFileOpen
  split <;> rfl

theorem onFileOpen_no_view_eq {p : String} {others : List OtherPane}
    {st : PluginState} (hsup : st.suppressNextFileOpen = false) :
    onFileOpen (some p) none others st =
      ⟨{ st with suppressNextFileOpen := false }, none, none⟩ := by
  unfold onFileOpen
  rw [hsup]
  rfl

theorem onFileOpen_reg_eq (p : String) (avId : Option Nat)
    (others : List OtherPane) (st : PluginState)
    (hsup : st.suppressNextFileOpen = false) (st' : PluginState) (av' : Option Nat)
    (hr : registerOnUnloadFile { st with suppressNextFileOpen := false } avId =
      (st', av')) :
    onFileOpen (some p) (some avId) others st =
      if !(recGet (getUniqueViewId st'.nextUniqueViewId av' false).1
          st'.lastOpenFiles != some p) then
        ⟨{ st' with lastOpenFiles :=
            (recSet (getUniqueViewId st'.nextUniqueViewId av' false).1 p
              st'.lastOpenFiles) },
          some av', none⟩
      else
        match recGet p st'.rememberedFiles with
        | some e =>
          ⟨{ st' with lastOpenFiles :=
              (recSet (getUniqueViewId st'.nextUniqueViewId av' false).1 p
                st'.lastOpenFiles) },
            some av', some (.fromCache e.stateData)⟩
        | none =>
          match findFileStateFromOtherPane p others with
          | some s =>
            ⟨{ st' with lastOpenFiles :=
                (recSet (getUniqueViewId st'.nextUniqueViewId av' false).1 p
                  st'.lastOpenFiles) },
              some av', some (.fromOtherPane s)⟩
          | none =>
            ⟨{ st' with lastOpenFiles :=
                (recSet (getUniqueViewId st'.nextUniqueViewId av' false).1 p
                  st'.lastOpenFiles) },
              some av', none⟩ := by
  unfold onFileOpen
  rw [hsup]
  simp only [Bool.false_eq_true, if_false, hr]

theorem onFileOpen_flag_cleared (p : String) (av : Option (Option Nat))
    (others : List OtherPane) (st : PluginState) :
    (onFileOpen (some p) av others st).st.suppressNextFileOpen = false := by
  cases hb : st.suppressNextFileOpen with
  | true => rw [onFileOpen_suppressed_eq hb]
  | false =>
    cases av with
    | none => rw [onFileOpen_no_view_eq hb]
    | some avId =>
      rw [onFileOpen_reg_eq p avId others st hb
        (registerOnUnloadFile { st with suppressNextFileOpen := false } avId).1
        (registerOnUnloadFile { st with suppressNextFileOpen := false } avId).2 rfl]
      split
      · simp only [registerOnUnloadFile_suppress]
      · split
        · simp only [registerOnUnloadFile_suppress]
        · split <;> simp only [registerOnUnloadFile_suppress]

theorem onFileOpen_restored_eq (p : String) (vid : Nat)
    (others : List OtherPane) (st : PluginState)
    (hsup : st.suppressNextFileOpen = false) :
    (onFileOpen (some p) (some (some vid)) others st).restored =
      if recGet ((vid : Int)) st.lastOpenFiles != some p then
        (match recGet p st.rememberedFiles with
         | some e => some (RestoreSource.fromCache e.stateData)
         | none =>
           (findFileStateFromOtherPane p others).map RestoreSource.fromOtherPane)
      else none := by
  by_cases hreg : (st.registeredViews.any fun r => r == ((vid : Int))) = true
  · simp only [onFileOpen, hsup, Bool.false_eq_true, if_false,
      registerOnUnloadFile_some_eq, hreg, if_true, getUniqueViewId]
    cases hb : (recGet ((vid : Int)) st.lastOpenFiles != some p) with
    | false => simp [hb]
    | true =>
      simp only [hb, Bool.not_true, Bool.false_eq_true, if_false, if_true]
      cases hc : recGet p st.rememberedFiles with
      | some e => rfl
      | none => cases hf : findFileStateFromOtherPane p others <;> rfl
  · simp only [onFileOpen, hsup, Bool.false_eq_true, if_false,
      registerOnUnloadFile_some_eq, hreg, if_true, getUniqueViewId]
    cases hb : (recGet ((vid : Int)) st.lastOpenFiles != some p) with
    | false => simp [hb]
    | true =>
      simp only [hb, Bool.not_true, Bool.false_eq_true, if_false, if_true]
      cases hc : recGet p st.rememberedFiles with
      | some e => rfl
      | none => cases hf : findFileStateFromOtherPane p others <;> rfl

end RememberFileState

namespace RememberFileState

/-- C1: with `capacityLimit > 0`, after any sequence of `remember` calls the
cache holds at most `capacityLimit` entries; eviction only removes entries
whose `lastSavedTime` is no newer than that of every kept entry; and in the
scenario cap = 2 with a@1, b@2, c@3 the cache holds exactly b and c, with a
evicted. -/
theorem claim_C1 :
    (∀ (keepMax : Int) (ops : List RememberOp), 0 < keepMax →
      (runRemembers keepMax ops).length ≤ keepMax.toNat) ∧
    (∀ (keepMax : Int) (files : List (String × RememberedFileState))
        (p q : String) (e k : RememberedFileState),
      0 < keepMax → WFfiles files → (p, e) ∈ files →
      (p, e) ∉ forgetExcessFiles keepMax files →
      (q, k) ∈ forgetExcessFiles keepMax files →
      e.lastSavedTime ≤ k.lastSavedTime) ∧
    ((runRemembers 2 [⟨1, "a", ⟨⟨0, 0⟩, none⟩⟩, ⟨2, "b", ⟨⟨0, 0⟩, none⟩⟩,
        ⟨3, "c", ⟨⟨0, 0⟩, none⟩⟩]).map Prod.fst = ["b", "c"] ∧
      recGet "a" (runRemembers 2 [⟨1, "a", ⟨⟨0, 0⟩, none⟩⟩,
        ⟨2, "b", ⟨⟨0, 0⟩, none⟩⟩, ⟨3, "c", ⟨⟨0, 0⟩, none⟩⟩]) = none) :=
  ⟨fun _ ops hk => length_runRemembers_le hk ops,
    fun _ _ _ _ _ _ hk hwf hin hout hkept =>
      removed_oldest hk hwf hin hout hkept, rfl, rfl⟩

theorem claim_C1_witness :
    (runRemembers 2 [⟨1, "a", ⟨⟨0, 0⟩, none⟩⟩]).length ≤ (2 : Int).toNat ∧
      ((⟨"x", 5, ⟨⟨0, 0⟩, none⟩⟩ : RememberedFileState).lastSavedTime ≤
        (⟨"y", 7, ⟨⟨0, 0⟩, none⟩⟩ : RememberedFileState).lastSavedTime) := by
  constructor
  · exact claim_C1.1 2 [⟨1, "a", ⟨⟨0, 0⟩, none⟩⟩] (by decide)
  · have hF : forgetExcessFiles 1
        [("x", (⟨"x", 5, ⟨⟨0, 0⟩, none⟩⟩ : RememberedFileState)),
         ("y", ⟨"y", 7, ⟨⟨0, 0⟩, none⟩⟩)] =
        [("y", ⟨"y", 7, ⟨⟨0, 0⟩, none⟩⟩)] := rfl
    refine claim_C1.2.1 1
      [("x", ⟨"x", 5, ⟨⟨0, 0⟩, none⟩⟩), ("y", ⟨"y", 7, ⟨⟨0, 0⟩, none⟩⟩)]
      "x" "y" ⟨"x", 5, ⟨⟨0, 0⟩, none⟩⟩ ⟨"y", 7, ⟨⟨0, 0⟩, none⟩⟩
      (by decide) (by decide) (List.mem_cons_self _ _) ?_ ?_
    · rw [hF]
      intro h
      simp at h
    · rw [hF]
      exact List.mem_cons_self _ _

/-- C2 counterexample: after remember a@1, b@2, c@3 with cap = 2, the most
recently remembered state for "a" exists, yet `recall "a"` returns nothing
because the entry was evicted — refuting the claim that recall always
returns the most recently remembered state. -/
theorem claim_C2_counterexample :
    lastStateFor "a" [⟨1, "a", ⟨⟨0, 0⟩, none⟩⟩, ⟨2, "b", ⟨⟨0, 0⟩, none⟩⟩,
        ⟨3, "c", ⟨⟨0, 0⟩, none⟩⟩] = some ⟨⟨0, 0⟩, none⟩ ∧
      ¬((recGet "a" (runRemembers 2 [⟨1, "a", ⟨⟨0, 0⟩, none⟩⟩,
          ⟨2, "b", ⟨⟨0, 0⟩, none⟩⟩, ⟨3, "c", ⟨⟨0, 0⟩, none⟩⟩])).map
            RememberedFileState.stateData =
        lastStateFor "a" [⟨1, "a", ⟨⟨0, 0⟩, none⟩⟩, ⟨2, "b", ⟨⟨0, 0⟩, none⟩⟩,
          ⟨3, "c", ⟨⟨0, 0⟩, none⟩⟩]) := by
  refine ⟨rfl, fun h => ?_⟩
  have h' : (none : Option StateData) = some ⟨⟨0, 0⟩, none⟩ := h
  exact Option.noConfusion h'

/-- C2 (amended): whenever `recall p` finds an entry, that entry's state is
the most recently remembered one for `p`; and with `capacityLimit ≤ 0`
(no eviction) `recall p` returns exactly the most recently remembered
state for `p`. -/
theorem claim_C2 :
    (∀ (keepMax : Int) (ops : List RememberOp) (p : String)
        (e : RememberedFileState),
      recGet p (runRemembers keepMax ops) = some e →
      lastStateFor p ops = some e.stateData) ∧
    (∀ (keepMax : Int) (ops : List RememberOp) (p : String), keepMax ≤ 0 →
      (recGet p (runRemembers keepMax ops)).map RememberedFileState.stateData =
        lastStateFor p ops) := by
  constructor
  · intro keepMax ops p e h
    rcases run_recGet_lastState ops [] WFfiles_nil p e h with hl | ⟨_, hr⟩
    · exact hl
    · exact Option.noConfusion hr
  · intro keepMax ops p hk
    unfold runRemembers
    rw [run_recGet_nonpos hk ops [] p]
    cases hls : lastStateFor p ops with
    | some s => rfl
    | none => rfl

theorem claim_C2_witness :
    lastStateFor "a" [⟨1, "a", ⟨⟨0, 0⟩, none⟩⟩] =
        some ((⟨"a", 1, ⟨⟨0, 0⟩, none⟩⟩ : RememberedFileState).stateData) ∧
      (recGet "a" (runRemembers 0 [⟨1, "a", ⟨⟨0, 0⟩, none⟩⟩])).map
          RememberedFileState.stateData =
        lastStateFor "a" [⟨1, "a", ⟨⟨0, 0⟩, none⟩⟩] := by
  constructor
  · exact claim_C2.1 1 [⟨1, "a", ⟨⟨0, 0⟩, none⟩⟩] "a" ⟨"a", 1, ⟨⟨0, 0⟩, none⟩⟩ rfl
  · exact claim_C2.2 0 [⟨1, "a", ⟨⟨0, 0⟩, none⟩⟩] "a" (by decide)

/-- C3 counterexample: the persisted content "null" parses as the JSON value
`null`, which is not a valid cache document, yet `readStateDatabase`
installs it as `this.data` instead of leaving the empty cache — refuting
the claim that any content that does not load as a valid cache yields the
empty cache. -/
theorem claim_C3_counterexample :
    decodePluginData Json.null = none ∧
      ¬(readStateDatabase true (some Json.null) emptyDataJson = emptyDataJson) := by
  refine ⟨rfl, fun h => ?_⟩
  rw [readStateDatabase_parsed] at h
  exact Json.noConfusion h

/-- C3 (amended): when the persisted content fails to parse as JSON the
in-memory cache is left as it was (the empty cache at startup) and no
exception escapes; content that parses as JSON is installed as the cache
as-is, even when it is not a valid cache document; a missing file leaves
the cache unchanged. -/
theorem claim_C3 :
    readStateDatabase true none emptyDataJson = emptyDataJson ∧
      (∀ d0 : Json, readStateDatabase true none d0 = d0) ∧
      (∀ v d0 : Json, readStateDatabase true (some v) d0 = v) ∧
      (∀ (parseResult : Option Json) (d0 : Json),
        readStateDatabase false parseResult d0 = d0) :=
  ⟨rfl, fun _ => rfl, readStateDatabase_parsed, fun _ _ => rfl⟩

/-- C4: flushing a cache with `writeStateDatabase` and reading it back with
`readStateDatabase` reproduces an equivalent cache: the hydrated document
is installed verbatim and decodes to exactly the original entries — same
paths, same viewport state, `lastSavedTime` preserved exactly. -/
theorem claim_C4 (d : PluginData) :
    readStateDatabase true (some (writeStateDatabase d)) emptyDataJson =
        writeStateDatabase d ∧
      decodePluginData (writeStateDatabase d) = some d :=
  ⟨readStateDatabase_parsed _ _, decodePluginData_write d⟩

/-- C5 counterexample: with the suppression flag set, opening "y" in the
view with identity 5 is suppressed (no restore, flag cleared) but
`lastOpenFiles[5]` is NOT updated to "y" — the handler returns before the
update, refuting the claim that the suppressed open still records the
opened path. -/
theorem claim_C5_counterexample :
    (⟨true, 6, [], [], []⟩ : PluginState).suppressNextFileOpen = true ∧
      (onFileOpen (some "y") (some (some 5)) []
        (⟨true, 6, [], [], []⟩ : PluginState)).restored = none ∧
      (onFileOpen (some "y") (some (some 5)) []
        (⟨true, 6, [], [], []⟩ : PluginState)).st.suppressNextFileOpen = false ∧
      ¬(recGet ((5 : Int))
          (onFileOpen (some "y") (some (some 5)) []
            (⟨true, 6, [], [], []⟩ : PluginState)).st.lastOpenFiles = some "y") :=
  ⟨rfl, rfl, rfl, fun h => Option.noConfusion h⟩

/-- C5 (amended): a file-open event arriving with `suppressNextOpen` set
reads and clears the flag, does not restore state, and leaves
`lastOpenFilePath` unchanged (the handler returns before updating it);
the flag is reset after every open event that carries a file, regardless
of outcome. -/
theorem claim_C5 {p : String} {av : Option (Option Nat)}
    {others : List OtherPane} {st : PluginState}
    (h : st.suppressNextFileOpen = true) :
    (onFileOpen (some p) av others st).restored = none ∧
      (onFileOpen (some p) av others st).st.lastOpenFiles = st.lastOpenFiles ∧
      (∀ (q : String) (av' : Option (Option Nat)) (others' : List OtherPane)
          (st' : PluginState),
        (onFileOpen (some q) av' others' st').st.suppressNextFileOpen = false) := by
  rw [onFileOpen_suppressed_eq h]
  exact ⟨rfl, rfl, onFileOpen_flag_cleared⟩

theorem claim_C5_witness :
    (onFileOpen (some "y") (some (some 5)) []
        (⟨true, 6, [], [], []⟩ : PluginState)).restored = none ∧
      (onFileOpen (some "y") (some (some 5)) []
          (⟨true, 6, [], [], []⟩ : PluginState)).st.lastOpenFiles =
        (⟨true, 6, [], [], []⟩ : PluginState).lastOpenFiles :=
  ⟨(@claim_C5 "y" (some (some 5)) [] ⟨true, 6, [], [], []⟩ rfl).1,
    (@claim_C5 "y" (some (some 5)) [] ⟨true, 6, [], [], []⟩ rfl).2.1⟩

/-- C6: a file-open event in a view whose identity's last open path equals
the opened path is a pane-refocus and state restoration is not invoked;
when the paths differ, the open is genuine and restoration proceeds from
the cache or, failing that, from another pane showing the same file. -/
theorem claim_C6 {p : String} {vid : Nat} {others : List OtherPane}
    {st : PluginState} (hsup : st.suppressNextFileOpen = false) :
    (recGet ((vid : Int)) st.lastOpenFiles = some p →
      (onFileOpen (some p) (some (some vid)) others st).restored = none) ∧
    (¬(recGet ((vid : Int)) st.lastOpenFiles = some p) →
      (onFileOpen (some p) (some (some vid)) others st).restored =
        match recGet p st.rememberedFiles with
        | some e => some (RestoreSource.fromCache e.stateData)
        | none =>
          (findFileStateFromOtherPane p others).map RestoreSource.fromOtherPane) := by
  rw [onFileOpen_restored_eq p vid others st hsup]
  constructor
  · intro h
    rw [h]
    simp
  · intro h
    have hb : (recGet ((vid : Int)) st.lastOpenFiles != some p) = true := by
      rw [bne_iff_ne]
      exact h
    rw [hb]
    simp

theorem claim_C6_witness :
    (onFileOpen (some "x") (some (some 5)) []
        (⟨false, 6, [((5 : Int), "x")], [], []⟩ : PluginState)).restored = none ∧
      (onFileOpen (some "z") (some (some 5)) []
          (⟨false, 6, [((5 : Int), "x")], [], []⟩ : PluginState)).restored =
        match recGet "z"
            (⟨false, 6, [((5 : Int), "x")], [], []⟩ : PluginState).rememberedFiles with
        | some e => some (RestoreSource.fromCache e.stateData)
        | none =>
          (findFileStateFromOtherPane "z" []).map RestoreSource.fromOtherPane := by
  constructor
  · exact (@claim_C6 "x" 5 [] ⟨false, 6, [((5 : Int), "x")], [], []⟩ rfl).1 rfl
  · exact (@claim_C6 "z" 5 [] ⟨false, 6, [((5 : Int), "x")], [], []⟩ rfl).2 (by decide)

/-- C7 counterexample: renaming a path to itself when an entry exists there
leaves the entry reachable, so `recall(old)` does not return nothing —
refuting the claim for the degenerate pair old = new. -/
theorem claim_C7_counterexample :
    recGet "a" (onFileRename "a" "a"
        [("a", (⟨"a", 1, ⟨⟨0, 0⟩, none⟩⟩ : RememberedFileState))]) =
      some ⟨"a", 1, ⟨⟨0, 0⟩, none⟩⟩ ∧
    ¬(recGet "a" (onFileRename "a" "a"
        [("a", (⟨"a", 1, ⟨⟨0, 0⟩, none⟩⟩ : RememberedFileState))]) = none) :=
  ⟨rfl, fun h => Option.noConfusion h⟩

/-- C7 (amended): for distinct paths old ≠ new with an entry at old,
renaming moves the entry: `recall new` returns the old entry with only the
path field updated (state and `lastSavedTime` preserved, overwriting any
previous entry at new), and `recall old` returns nothing. -/
theorem claim_C7 {files : List (String × RememberedFileState)}
    {oldPath newPath : String} {e : RememberedFileState}
    (h : recGet oldPath files = some e) (hne : ¬(oldPath = newPath)) :
    recGet newPath (onFileRename newPath oldPath files) =
        some { e with path := newPath } ∧
      recGet oldPath (onFileRename newPath oldPath files) = none :=
  onFileRename_moves h hne

theorem claim_C7_witness :
    recGet "b" (onFileRename "b" "a"
        [("a", (⟨"a", 1, ⟨⟨0, 0⟩, none⟩⟩ : RememberedFileState))]) =
      some ⟨"b", 1, ⟨⟨0, 0⟩, none⟩⟩ ∧
    recGet "a" (onFileRename "b" "a"
        [("a", (⟨"a", 1, ⟨⟨0, 0⟩, none⟩⟩ : RememberedFileState))]) = none :=
  @claim_C7 [("a", ⟨"a", 1, ⟨⟨0, 0⟩, none⟩⟩)] "a" "b" ⟨"a", 1, ⟨⟨0, 0⟩, none⟩⟩
    rfl (by decide)

/-- C8: with `capacityLimit ≤ 0`, eviction is a no-op, no remember call
ever removes a key, and a sequence of remembers over distinct paths leaves
the cache containing exactly all of them. -/
theorem claim_C8 :
    (∀ (keepMax : Int) (files : List (String × RememberedFileState)),
      keepMax ≤ 0 → forgetExcessFiles keepMax files = files) ∧
    (∀ (keepMax now : Int) (path : String) (sd : StateData)
        (files : List (String × RememberedFileState)) (q : String),
      keepMax ≤ 0 → q ∈ files.map Prod.fst →
      q ∈ (rememberFileState keepMax now path sd files).map Prod.fst) ∧
    (∀ (keepMax : Int) (ops : List RememberOp), keepMax ≤ 0 →
      (ops.map RememberOp.path).Nodup →
      runRemembers keepMax ops =
        ops.map (fun o => (o.path, ⟨o.path, o.time, o.state⟩))) := by
  refine ⟨fun _ files hk => forgetExcessFiles_nonpos hk files,
    fun _ now path sd files q hk hq =>
      rememberFileState_keeps_keys hk now path sd files q hq, ?_⟩
  intro keepMax ops hk hnd
  have h := run_nonpos_distinct hk ops [] (fun _ _ => rfl) (List.pairwise_map.1 hnd)
  unfold runRemembers
  rw [h]
  rfl

theorem claim_C8_witness :
    forgetExcessFiles 0 [("a", (⟨"a", 1, ⟨⟨0, 0⟩, none⟩⟩ : RememberedFileState))] =
        [("a", ⟨"a", 1, ⟨⟨0, 0⟩, none⟩⟩)] ∧
      "a" ∈ (rememberFileState 0 2 "b" ⟨⟨0, 0⟩, none⟩
        [("a", (⟨"a", 1, ⟨⟨0, 0⟩, none⟩⟩ : RememberedFileState))]).map Prod.fst ∧
      runRemembers 0 [⟨1, "a", ⟨⟨0, 0⟩, none⟩⟩, ⟨2, "b", ⟨⟨0, 0⟩, none⟩⟩] =
        [(⟨1, "a", ⟨⟨0, 0⟩, none⟩⟩ : RememberOp), ⟨2, "b", ⟨⟨0, 0⟩, none⟩⟩].map
          (fun o => (o.path, ⟨o.path, o.time, o.state⟩)) :=
  ⟨claim_C8.1 0 _ (by decide),
    claim_C8.2.1 0 2 "b" ⟨⟨0, 0⟩, none⟩ _ "a" (by decide) (by decide),
    claim_C8.2.2 0 _ (by decide) (by decide)⟩

/-- C9: `getUniqueViewId` returns the sentinel -1 without mutating anything
when the view has no identity and auto-create is off; allocates the
current counter value and increments the counter when auto-create is on;
returns an existing identity unchanged; and the counter never decreases
while each allocated id is strictly below the new counter, so ids are
never reused within a process run. -/
theorem claim_C9 :
    (∀ n : Nat, getUniqueViewId n none false = (-1, none, n)) ∧
      (∀ n : Nat, getUniqueViewId n none true = ((n : Int), some n, n + 1)) ∧
      (∀ (n i : Nat) (b : Bool),
        getUniqueViewId n (some i) b = ((i : Int), some i, n)) ∧
      (∀ (n : Nat) (v : Option Nat) (b : Bool),
        n ≤ (getUniqueViewId n v b).2.2) ∧
      (∀ n : Nat,
        (getUniqueViewId n none true).1 <
          ((getUniqueViewId n none true).2.2 : Int)) := by
  refine ⟨fun _ => rfl, fun _ => rfl, fun _ _ _ => rfl, ?_, ?_⟩
  · intro n v b
    cases v with
    | none =>
      cases b with
      | false => exact le_refl n
      | true => exact Nat.le_succ n
    | some i => exact le_refl n
  · intro n
    show (n : Int) < ((n + 1 : Nat) : Int)
    exact_mod_cast Nat.lt_succ_self n

/-- C10: the eviction sort is stable over insertion order: among entries
with equal `lastSavedTime`, the earlier-inserted ones are kept
(`forgetExcessFiles` keeps a prefix); consequently, remembering a new path
into a cache at capacity with a timestamp tying all existing entries
evicts the just-inserted entry itself, so an immediate recall of that path
returns nothing. -/
theorem claim_C10 :
    (∀ (keepMax : Int) (files : List (String × RememberedFileState)) (t : Int),
      0 < keepMax → WFfiles files → (∀ pr ∈ files, pr.2.lastSavedTime = t) →
      forgetExcessFiles keepMax files = files.take keepMax.toNat) ∧
    (∀ (keepMax : Int) (files : List (String × RememberedFileState))
        (t : Int) (p : String) (s : StateData),
      0 < keepMax → WFfiles files → (∀ pr ∈ files, pr.2.lastSavedTime = t) →
      files.length = keepMax.toNat → recGet p files = none →
      rememberFileState keepMax t p s files = files ∧
        recGet p (rememberFileState keepMax t p s files) = none) := by
  constructor
  · intro keepMax files t hk hwf ht
    exact forgetExcessFiles_const_time hk hwf ht
  · intro keepMax files t p s hk hwf ht hlen hp
    have h := rememberFileState_tie_evicts hk hwf ht hlen hp s
    refine ⟨h, ?_⟩
    rw [h]
    exact hp

theorem claim_C10_witness :
    forgetExcessFiles 1 [("a", (⟨"a", 5, ⟨⟨0, 0⟩, none⟩⟩ : RememberedFileState)),
        ("b", ⟨"b", 5, ⟨⟨0, 0⟩, none⟩⟩)] =
      ([("a", (⟨"a", 5, ⟨⟨0, 0⟩, none⟩⟩ : RememberedFileState)),
        ("b", ⟨"b", 5, ⟨⟨0, 0⟩, none⟩⟩)]).take (1 : Int).toNat ∧
    rememberFileState 2 5 "c" ⟨⟨0, 0⟩, none⟩
        [("a", (⟨"a", 5, ⟨⟨0, 0⟩, none⟩⟩ : RememberedFileState)),
         ("b", ⟨"b", 5, ⟨⟨0, 0⟩, none⟩⟩)] =
      [("a", (⟨"a", 5, ⟨⟨0, 0⟩, none⟩⟩ : RememberedFileState)),
       ("b", ⟨"b", 5, ⟨⟨0, 0⟩, none⟩⟩)] ∧
    recGet "c" (rememberFileState 2 5 "c" ⟨⟨0, 0⟩, none⟩
        [("a", (⟨"a", 5, ⟨⟨0, 0⟩, none⟩⟩ : RememberedFileState)),
         ("b", ⟨"b", 5, ⟨⟨0, 0⟩, none⟩⟩)]) = none := by
  refine ⟨claim_C10.1 1 _ 5 (by decide) (by decide) (by decide), ?_, ?_⟩
  · exact (claim_C10.2 2
      [("a", ⟨"a", 5, ⟨⟨0, 0⟩, none⟩⟩), ("b", ⟨"b", 5, ⟨⟨0, 0⟩, none⟩⟩)]
      5 "c" ⟨⟨0, 0⟩, none⟩ (by decide) (by decide)
      (by decide) (by decide) rfl).1
  · exact (claim_C10.2 2
      [("a", ⟨"a", 5, ⟨⟨0, 0⟩, none⟩⟩), ("b", ⟨"b", 5, ⟨⟨0, 0⟩, none⟩⟩)]
      5 "c" ⟨⟨0, 0⟩, none⟩ (by decide) (by decide)
      (by decide) (by decide) rfl).2

end RememberFileState
